import Mathlib

/-!
# Verification of the voxel-world core (sparse voxel octree, chunk streaming, ray tests)

Shallow embedding of the repository's computational core:

* `src/voxel/types.rs`   — ids, positions, world/chunk/local coordinate conversions
* `src/world/svo.rs`     — `SparseVoxelOctree` node pool with `set_voxel` / `get_voxel`
* `src/world/chunk.rs`   — `VoxelChunk`, `VoxelWorld`, chunk streaming around a viewpoint
* `src/raytracing/ray.rs` — slab-method ray/AABB intersection
* `src/raytracing/traversal.rs` — grid-DDA chunk traversal

Modelling conventions:

* Rust `u32` ids, masks and indices are modelled as `Nat`.  All mask arithmetic uses
  only bits 0..7 (octants) so no wraparound is ever reachable; `count_ones` is modelled
  as a 32-bit popcount.
* Rust `f32` vectors are modelled as exact rationals (`Vec3Q`).  Properties proved over
  `ℚ` are about the exact-arithmetic reading of the same formulas; IEEE-754 rounding,
  signed zeros, infinities and NaNs are outside the model and are noted where the source
  relies on them (reciprocals of zero direction components).
* `Vec` indexing `nodes[i]` (which panics when out of bounds in Rust) is modelled with a
  default-on-out-of-range read (`List.getD`) and a no-op out-of-range write (`List.set`);
  every execution examined by the theorems below stays in bounds.
* Rust's `Vec::push`/`Vec::pop` on the free list is modelled as a head stack (cons/head).
* `set_voxel` is embedded once, instrumented to additionally return the list of
  `(parent index, octant, allocated index)` triples for every internal node it allocates;
  the plain `set_voxel` is its first projection.  The log is ghost information used to
  state the child-placement invariant; it does not influence the computed state.
-/

/-- `CHUNK_SIZE` from `src/voxel/types.rs` (32 voxels per chunk axis). -/
def CHUNK_SIZE : Nat := 32

/-- `AIR_VOXEL` — voxel id 0 is air.  `VoxelId` is modelled as a bare `Nat`. -/
def AIR_VOXEL : Nat := 0

/-- `VoxelId::is_air` — true iff the id is 0. -/
def voxel_is_air (v : Nat) : Prop := v = 0

/-- `VoxelId::is_solid` — true iff the id is non-zero. -/
def voxel_is_solid (v : Nat) : Prop := v ≠ 0

/-- `LocalVoxelPos` — an in-chunk voxel coordinate (source components are `u32`). -/
structure LocalVoxelPos where
  x : Nat
  y : Nat
  z : Nat
deriving DecidableEq, Repr

/-- `LocalVoxelPos::new` (`src/voxel/types.rs:96`): the construction is guarded by
`debug_assert!(c < CHUNK_SIZE)` on every component; an assertion failure (panic) is
modelled as `none`, so a value is returned only for in-range components. -/
def LocalVoxelPos.new (x y z : Nat) : Option LocalVoxelPos :=
  if x < CHUNK_SIZE ∧ y < CHUNK_SIZE ∧ z < CHUNK_SIZE then
    some ⟨x, y, z⟩
  else
    none

/-- `glam::IVec3` — a vector of three signed integers. -/
structure IVec3 where
  x : Int
  y : Int
  z : Int
deriving DecidableEq, Repr

/-- The `IVec3` a `LocalVoxelPos` is converted to at the top of `set_voxel`/`get_voxel`. -/
def LocalVoxelPos.toIVec3 (p : LocalVoxelPos) : IVec3 :=
  ⟨(p.x : Int), (p.y : Int), (p.z : Int)⟩

/-- 32-bit `count_ones` (popcount) of a `u32` value. -/
def u32_count_ones (m : Nat) : Nat :=
  ((List.range 32).filter (fun j => m.testBit j)).length

/-- The all-ones `u32`, used to model bitwise complement `!mask`. -/
def U32_MASK : Nat := 2 ^ 32 - 1

/-- `OctreeNode` (`src/world/svo.rs:10`): child/leaf bitmasks over the 8 octants,
index of the first child in the node pool, and the voxel id held when the node
stands for a leaf. -/
structure OctreeNode where
  child_mask : Nat
  leaf_mask : Nat
  child_ptr : Nat
  voxel_id : Nat
deriving DecidableEq, Repr

/-- `OctreeNode::new_empty`. -/
def OctreeNode.new_empty : OctreeNode :=
  { child_mask := 0, leaf_mask := 0, child_ptr := 0, voxel_id := AIR_VOXEL }

/-- `OctreeNode::new_leaf`. -/
def OctreeNode.new_leaf (v : Nat) : OctreeNode :=
  { child_mask := 0, leaf_mask := 0, child_ptr := 0, voxel_id := v }

/-- `OctreeNode::has_child` — `(child_mask & (1 << i)) != 0`. -/
def OctreeNode.has_child (n : OctreeNode) (i : Nat) : Bool :=
  n.child_mask.testBit i

/-- `OctreeNode::is_leaf` — `(leaf_mask & (1 << i)) != 0`. -/
def OctreeNode.is_leaf_child (n : OctreeNode) (i : Nat) : Bool :=
  n.leaf_mask.testBit i

/-- `OctreeNode::set_child` — sets the child bit, and sets or clears the leaf bit. -/
def OctreeNode.set_child (n : OctreeNode) (i : Nat) (is_leaf : Bool) : OctreeNode :=
  { n with
    child_mask := n.child_mask ||| (1 <<< i),
    leaf_mask :=
      if is_leaf then n.leaf_mask ||| (1 <<< i)
      else n.leaf_mask &&& (U32_MASK ^^^ (1 <<< i)) }

/-- `OctreeNode::remove_child` — clears both bits (present for completeness; no caller). -/
def OctreeNode.remove_child (n : OctreeNode) (i : Nat) : OctreeNode :=
  { n with
    child_mask := n.child_mask &&& (U32_MASK ^^^ (1 <<< i)),
    leaf_mask := n.leaf_mask &&& (U32_MASK ^^^ (1 <<< i)) }

/-- `SparseVoxelOctree` (`src/world/svo.rs:66`): node pool, free list, root size. -/
structure SparseVoxelOctree where
  nodes : List OctreeNode
  free_indices : List Nat
  root_size : Nat
deriving DecidableEq, Repr

/-- `SparseVoxelOctree::new` — a pool holding just the empty root, root size `CHUNK_SIZE`. -/
def SparseVoxelOctree.new : SparseVoxelOctree :=
  { nodes := [OctreeNode.new_empty], free_indices := [], root_size := CHUNK_SIZE }

/-- `SparseVoxelOctree::clear` — reset the pool to the single empty root. -/
def SparseVoxelOctree.clear (s : SparseVoxelOctree) : SparseVoxelOctree :=
  { s with nodes := [OctreeNode.new_empty], free_indices := [] }

/-- `SparseVoxelOctree::node_count`. -/
def SparseVoxelOctree.node_count (s : SparseVoxelOctree) : Nat :=
  s.nodes.length

/-- Read of `self.nodes[i]` (in-bounds in every execution the theorems touch). -/
def SparseVoxelOctree.node_at (s : SparseVoxelOctree) (i : Nat) : OctreeNode :=
  s.nodes.getD i OctreeNode.new_empty

/-- In-place update `self.nodes[i] = f(self.nodes[i])`. -/
def SparseVoxelOctree.update_at (s : SparseVoxelOctree) (i : Nat)
    (f : OctreeNode → OctreeNode) : SparseVoxelOctree :=
  { s with nodes := s.nodes.set i (f (s.node_at i)) }

/-- `SparseVoxelOctree::allocate_node` — pop a free index if available, else append. -/
def SparseVoxelOctree.allocate_node (s : SparseVoxelOctree) : Nat × SparseVoxelOctree :=
  match s.free_indices with
  | i :: rest =>
      (i, { s with nodes := s.nodes.set i OctreeNode.new_empty, free_indices := rest })
  | [] =>
      (s.nodes.length, { s with nodes := s.nodes ++ [OctreeNode.new_empty] })

/-- `SparseVoxelOctree::deallocate_node` — clear the node and push its index on the
free list (guarded against index 0 and out-of-range; no caller in the repository). -/
def SparseVoxelOctree.deallocate_node (s : SparseVoxelOctree) (i : Nat) : SparseVoxelOctree :=
  if 0 < i ∧ i < s.nodes.length then
    { s with nodes := s.nodes.set i OctreeNode.new_empty, free_indices := i :: s.free_indices }
  else
    s

/-- The octant picked at one level of the descent (`src/world/svo.rs:120-126`):
component `c` of the child offset is 1 iff `target.c >= node_pos.c + half_size`. -/
def octant_offset (node_pos : IVec3) (half : Nat) (target : IVec3) : IVec3 :=
  ⟨if node_pos.x + (half : Int) ≤ target.x then 1 else 0,
   if node_pos.y + (half : Int) ≤ target.y then 1 else 0,
   if node_pos.z + (half : Int) ≤ target.z then 1 else 0⟩

/-- `child_index = offset.x + offset.y * 2 + offset.z * 4` (a value in 0..7). -/
def octant_index (off : IVec3) : Nat :=
  (off.x + off.y * 2 + off.z * 4).toNat

/-- Rank of an octant inside a child mask:
`(child_mask & ((1 << child_index) - 1)).count_ones()`. -/
def mask_rank (child_mask : Nat) (child_index : Nat) : Nat :=
  u32_count_ones (child_mask &&& ((1 <<< child_index) - 1))

/-- The descent loop of `SparseVoxelOctree::set_voxel` (`src/world/svo.rs:116-170`),
instrumented: besides the updated octree it returns one `(parent, octant, index)`
triple per internal node allocated during the call (ghost data for stating the
child-placement invariant).  The structural `fuel` argument only bounds the recursion;
the loop halves `node_size` each iteration and exits at `node_size <= 2`, so with
`fuel = root_size` the `fuel = 0` case is never reached. -/
def set_voxel_go (target : IVec3) (v : Nat) :
    Nat → SparseVoxelOctree → Nat → Nat → IVec3 → SparseVoxelOctree × List (Nat × Nat × Nat)
  | 0, s, _, _, _ => (s, [])
  | fuel + 1, s, node_index, node_size, node_pos =>
    if 1 < node_size then
      let half := node_size / 2
      let off := octant_offset node_pos half target
      let child_index := octant_index off
      let node_pos' : IVec3 :=
        ⟨node_pos.x + off.x * (half : Int), node_pos.y + off.y * (half : Int),
         node_pos.z + off.z * (half : Int)⟩
      if ¬ (s.node_at node_index).has_child child_index then
        -- a required child slot is absent
        if v = AIR_VOXEL then
          (s, []) -- no need to create nodes for air voxels: early return
        else if node_size = 2 then
          -- next level would be leaf: mark it in the masks, then the loop breaks
          (s.update_at node_index (fun n => n.set_child child_index true), [])
        else
          -- create an internal node
          let alloc := s.allocate_node
          let new_node_index := alloc.1
          let s2 := alloc.2.update_at node_index (fun n => n.set_child child_index false)
          let s3 :=
            if u32_count_ones (s2.node_at node_index).child_mask = 1 then
              s2.update_at node_index (fun n => { n with child_ptr := new_node_index })
            else
              s2
          -- move to the child node computed from child_ptr and the mask rank
          let next :=
            (s3.node_at node_index).child_ptr +
              mask_rank (s3.node_at node_index).child_mask child_index
          let rec_result := set_voxel_go target v fuel s3 next half node_pos'
          (rec_result.1, (node_index, child_index, new_node_index) :: rec_result.2)
      else
        if node_size = 2 then
          (s, []) -- next level is leaf level: break (post-loop store needs node_size == 1)
        else
          let next :=
            (s.node_at node_index).child_ptr +
              mask_rank (s.node_at node_index).child_mask child_index
          set_voxel_go target v fuel s next half node_pos'
    else
      -- after the loop: `if node_size == 1 { nodes[node_index].voxel_id = v }`
      if node_size = 1 then
        (s.update_at node_index (fun n => { n with voxel_id := v }), [])
      else
        (s, [])

/-- `SparseVoxelOctree::set_voxel`, with its ghost allocation log. -/
def SparseVoxelOctree.set_voxel_log (s : SparseVoxelOctree) (p : LocalVoxelPos) (v : Nat) :
    SparseVoxelOctree × List (Nat × Nat × Nat) :=
  set_voxel_go p.toIVec3 v s.root_size s 0 s.root_size ⟨0, 0, 0⟩

/-- `SparseVoxelOctree::set_voxel` (`src/world/svo.rs:108`). -/
def SparseVoxelOctree.set_voxel (s : SparseVoxelOctree) (p : LocalVoxelPos) (v : Nat) :
    SparseVoxelOctree :=
  (s.set_voxel_log p v).1

/-- The descent loop of `SparseVoxelOctree::get_voxel` (`src/world/svo.rs:181-213`).
As for `set_voxel_go`, `fuel` only bounds the recursion; the `fuel = 0` fallthrough
returns the after-loop read and is unreachable with `fuel = root_size`. -/
def get_voxel_go (nodes : List OctreeNode) (target : IVec3) :
    Nat → Nat → Nat → IVec3 → Nat
  | 0, node_index, _, _ => (nodes.getD node_index OctreeNode.new_empty).voxel_id
  | fuel + 1, node_index, node_size, node_pos =>
    if 1 < node_size then
      let half := node_size / 2
      let off := octant_offset node_pos half target
      let child_index := octant_index off
      let node_pos' : IVec3 :=
        ⟨node_pos.x + off.x * (half : Int), node_pos.y + off.y * (half : Int),
         node_pos.z + off.z * (half : Int)⟩
      let current := nodes.getD node_index OctreeNode.new_empty
      if ¬ current.has_child child_index then
        AIR_VOXEL -- no child means air
      else if current.is_leaf_child child_index then
        current.voxel_id -- this child is a leaf: return the (current) node's stored id
      else
        get_voxel_go nodes target fuel
          (current.child_ptr + mask_rank current.child_mask child_index) half node_pos'
    else
      (nodes.getD node_index OctreeNode.new_empty).voxel_id

/-- `SparseVoxelOctree::get_voxel` (`src/world/svo.rs:173`). -/
def SparseVoxelOctree.get_voxel (s : SparseVoxelOctree) (p : LocalVoxelPos) : Nat :=
  get_voxel_go s.nodes p.toIVec3 s.root_size 0 s.root_size ⟨0, 0, 0⟩

/-- A sequence of `set_voxel` edits applied in order, starting from a given octree. -/
def apply_writes (s : SparseVoxelOctree) (ws : List (LocalVoxelPos × Nat)) :
    SparseVoxelOctree :=
  ws.foldl (fun acc pv => acc.set_voxel pv.1 pv.2) s

/-- `apply_writes` with the concatenated ghost allocation logs of every edit. -/
def apply_writes_log (s : SparseVoxelOctree) (ws : List (LocalVoxelPos × Nat)) :
    SparseVoxelOctree × List (Nat × Nat × Nat) :=
  ws.foldl
    (fun acc pv =>
      let step := acc.1.set_voxel_log pv.1 pv.2
      (step.1, acc.2 ++ step.2))
    (s, [])

/-- `glam::Vec3`, modelled with exact rational components. -/
structure Vec3Q where
  x : ℚ
  y : ℚ
  z : ℚ
deriving DecidableEq, Repr

/-- `VOXEL_SIZE = 0.125` world units per voxel. -/
def VOXEL_SIZE : ℚ := 1 / 8

/-- `CHUNK_SIZE_F32 = CHUNK_SIZE as f32`. -/
def CHUNK_SIZE_F : ℚ := 32

/-- `ChunkPos::from_world_pos` — componentwise
`(world / (CHUNK_SIZE_F32 * VOXEL_SIZE)).floor() as i32`.  (The saturating `as i32`
cast is modelled as an unbounded integer.) -/
def chunk_pos_from_world_pos (p : Vec3Q) : IVec3 :=
  ⟨⌊p.x / (CHUNK_SIZE_F * VOXEL_SIZE)⌋,
   ⌊p.y / (CHUNK_SIZE_F * VOXEL_SIZE)⌋,
   ⌊p.z / (CHUNK_SIZE_F * VOXEL_SIZE)⌋⟩

/-- `ChunkPos::to_world_pos` — componentwise `c * CHUNK_SIZE_F32 * VOXEL_SIZE`. -/
def chunk_pos_to_world_pos (c : IVec3) : Vec3Q :=
  ⟨(c.x : ℚ) * CHUNK_SIZE_F * VOXEL_SIZE,
   (c.y : ℚ) * CHUNK_SIZE_F * VOXEL_SIZE,
   (c.z : ℚ) * CHUNK_SIZE_F * VOXEL_SIZE⟩

/-- `world_to_chunk_and_local` (`src/voxel/types.rs:121`): chunk coordinate plus the
clamped local voxel index.  The `f32 -> u32` cast truncates toward zero; on the
already-clamped non-negative value this is the floor, modelled with `Int.toNat ∘ floor`. -/
def world_to_chunk_and_local (p : Vec3Q) : IVec3 × LocalVoxelPos :=
  let chunk_pos := chunk_pos_from_world_pos p
  let cw := chunk_pos_to_world_pos chunk_pos
  let lx := (p.x - cw.x) / VOXEL_SIZE
  let ly := (p.y - cw.y) / VOXEL_SIZE
  let lz := (p.z - cw.z) / VOXEL_SIZE
  (chunk_pos,
   ⟨min (Int.toNat ⌊max lx 0⌋) (CHUNK_SIZE - 1),
    min (Int.toNat ⌊max ly 0⌋) (CHUNK_SIZE - 1),
    min (Int.toNat ⌊max lz 0⌋) (CHUNK_SIZE - 1)⟩)

/-- `Ray::at` — `origin + direction * t`, componentwise. -/
def ray_at (o d : Vec3Q) (t : ℚ) : Vec3Q :=
  ⟨o.x + d.x * t, o.y + d.y * t, o.z + d.z * t⟩

/-- One slab's lower parameter: `min ((min - o) * (1/d)) ((max - o) * (1/d))`
(`t1.min(t2)` for one component in `ray_aabb_intersect`). -/
def slab_lo (a b oc dc : ℚ) : ℚ :=
  min ((a - oc) * (1 / dc)) ((b - oc) * (1 / dc))

/-- One slab's upper parameter: `t1.max(t2)` for one component. -/
def slab_hi (a b oc dc : ℚ) : ℚ :=
  max ((a - oc) * (1 / dc)) ((b - oc) * (1 / dc))

/-- `tmin.x.max(tmin.y).max(tmin.z)` — the unclamped entry parameter. -/
def aabb_tmin (o d bmin bmax : Vec3Q) : ℚ :=
  max (max (slab_lo bmin.x bmax.x o.x d.x) (slab_lo bmin.y bmax.y o.y d.y))
    (slab_lo bmin.z bmax.z o.z d.z)

/-- `t_near = tmin.x.max(tmin.y).max(tmin.z).max(0.0)`. -/
def aabb_tnear (o d bmin bmax : Vec3Q) : ℚ :=
  max (aabb_tmin o d bmin bmax) 0

/-- `t_far = tmax.x.min(tmax.y).min(tmax.z)`. -/
def aabb_tfar (o d bmin bmax : Vec3Q) : ℚ :=
  min (min (slab_hi bmin.x bmax.x o.x d.x) (slab_hi bmin.y bmax.y o.y d.y))
    (slab_hi bmin.z bmax.z o.z d.z)

/-- `ray_aabb_intersect` (`src/raytracing/ray.rs:122`), slab method over exact
rationals.  In the source a zero direction component produces an IEEE infinite
reciprocal; in `ℚ` the reciprocal of zero is zero, so the theorems about this
function assume all direction components are non-zero. -/
def ray_aabb_intersect (o d bmin bmax : Vec3Q) : Option (ℚ × ℚ) :=
  if aabb_tnear o d bmin bmax ≤ aabb_tfar o d bmin bmax ∧ 0 < aabb_tfar o d bmin bmax then
    some (aabb_tnear o d bmin bmax, aabb_tfar o d bmin bmax)
  else
    none

/-- Membership of a point in a closed axis-aligned box. -/
def in_aabb (p bmin bmax : Vec3Q) : Prop :=
  bmin.x ≤ p.x ∧ p.x ≤ bmax.x ∧ bmin.y ≤ p.y ∧ p.y ≤ bmax.y ∧ bmin.z ≤ p.z ∧ p.z ≤ bmax.z

/-- Membership of a point in the open interior of an axis-aligned box. -/
def in_aabb_interior (p bmin bmax : Vec3Q) : Prop :=
  bmin.x < p.x ∧ p.x < bmax.x ∧ bmin.y < p.y ∧ p.y < bmax.y ∧ bmin.z < p.z ∧ p.z < bmax.z

/-- `VoxelChunk` (`src/world/chunk.rs:10`). -/
structure VoxelChunk where
  position : IVec3
  octree : SparseVoxelOctree
  is_dirty : Bool
  is_generated : Bool
deriving DecidableEq, Repr

/-- `VoxelChunk::new`. -/
def VoxelChunk.new (pos : IVec3) : VoxelChunk :=
  { position := pos, octree := SparseVoxelOctree.new, is_dirty := true, is_generated := false }

/-- `VoxelChunk::set_voxel` — write through to the octree and mark the chunk dirty. -/
def VoxelChunk.set_voxel (c : VoxelChunk) (p : LocalVoxelPos) (v : Nat) : VoxelChunk :=
  { c with octree := c.octree.set_voxel p v, is_dirty := true }

/-- `VoxelChunk::get_voxel`. -/
def VoxelChunk.get_voxel (c : VoxelChunk) (p : LocalVoxelPos) : Nat :=
  c.octree.get_voxel p

/-- `VoxelChunk::is_empty` — single unexpanded root. -/
def VoxelChunk.is_empty (c : VoxelChunk) : Prop :=
  c.octree.node_count ≤ 1 ∧ (c.octree.node_at 0).child_mask = 0

/-- Lookup in the chunk map (`AHashMap<ChunkPos, VoxelChunk>` modelled as an
association list; the hash map's key uniqueness corresponds to lookup-first /
shadowing semantics here). -/
def chunk_lookup : List (IVec3 × VoxelChunk) → IVec3 → Option VoxelChunk
  | [], _ => none
  | p :: rest, k => if p.1 = k then some p.2 else chunk_lookup rest k

/-- `contains_key` on the chunk map. -/
def chunk_contains (m : List (IVec3 × VoxelChunk)) (k : IVec3) : Bool :=
  (chunk_lookup m k).isSome

/-- Remove every binding of a key from the chunk map (`AHashMap::remove`). -/
def chunk_remove (m : List (IVec3 × VoxelChunk)) (k : IVec3) : List (IVec3 × VoxelChunk) :=
  m.filter (fun p => decide (p.1 ≠ k))

/-- Insert/replace a binding in the chunk map (`AHashMap::insert`). -/
def chunk_insert (k : IVec3) (c : VoxelChunk) (m : List (IVec3 × VoxelChunk)) :
    List (IVec3 × VoxelChunk) :=
  (k, c) :: chunk_remove m k

/-- The key list of the chunk map. -/
def chunk_keys (m : List (IVec3 × VoxelChunk)) : List IVec3 :=
  m.map (fun p => p.1)

/-- `VoxelWorld` (`src/world/chunk.rs:90`).  The terrain generator — in the source a
`Perlin` noise instance plus the material palette consumed by
`VoxelChunk::generate_terrain` — is an external collaborator of the core (spec §1);
it is modelled as an opaque-to-the-theorems generation function `gen` producing the
fully generated chunk for a coordinate, exactly the value the parallel generation
step inserts. -/
structure VoxelWorld where
  chunks : List (IVec3 × VoxelChunk)
  gen : IVec3 → VoxelChunk
  render_distance : Int

/-- The integer range `a..=b` as a list (empty when `b < a`). -/
def int_range (a b : Int) : List Int :=
  (List.range (b + 1 - a).toNat).map (fun (i : Nat) => a + (i : Int))

/-- The coordinate box enumerated by the triple loop of `update_around_player`
(`src/world/chunk.rs:163-177`): offsets `-render_distance..=render_distance` on each
axis around the player chunk, x outermost then y then z. -/
def box_list (center : IVec3) (rd : Int) : List IVec3 :=
  (int_range (-rd) rd).flatMap (fun dx =>
    (int_range (-rd) rd).flatMap (fun dy =>
      (int_range (-rd) rd).map (fun dz =>
        ⟨center.x + dx, center.y + dy, center.z + dz⟩)))

/-- `VoxelWorld::update_around_player` (`src/world/chunk.rs:157`): collect the box
coordinates not yet resident, generate a chunk for each (in the source this map is
run on a parallel worker pool; generation of distinct chunks is independent, so the
sequential fold over the generated list models the fan-out/fan-in merge), insert
them, then remove every resident chunk outside the box. -/
def VoxelWorld.update_around_player (w : VoxelWorld) (player_pos : Vec3Q) : VoxelWorld :=
  let player_chunk := chunk_pos_from_world_pos player_pos
  let chunks_to_generate :=
    (box_list player_chunk w.render_distance).filter (fun q => ! chunk_contains w.chunks q)
  let new_chunks := chunks_to_generate.map (fun q => (q, w.gen q))
  let inserted := new_chunks.foldl (fun m qc => chunk_insert qc.1 qc.2 m) w.chunks
  let chunks_to_remove :=
    (chunk_keys inserted).filter (fun q =>
      decide (w.render_distance < |q.x - player_chunk.x| ∨
        w.render_distance < |q.y - player_chunk.y| ∨
        w.render_distance < |q.z - player_chunk.z|))
  let remaining := chunks_to_remove.foldl (fun m k => chunk_remove m k) inserted
  { w with chunks := remaining }

/-- `VoxelWorld::set_voxel` (`src/world/chunk.rs:231`): convert to chunk+local
coordinates and write through when the chunk is resident; otherwise do nothing.
The in-place mutation through `get_mut` is modelled as re-inserting the updated
chunk under its key. -/
def VoxelWorld.set_voxel (w : VoxelWorld) (p : Vec3Q) (v : Nat) : VoxelWorld :=
  let cl := world_to_chunk_and_local p
  match chunk_lookup w.chunks cl.1 with
  | some c => { w with chunks := chunk_insert cl.1 (c.set_voxel cl.2 v) w.chunks }
  | none => w

/-- `VoxelWorld::get_voxel` (`src/world/chunk.rs:239`): air when the chunk is absent. -/
def VoxelWorld.get_voxel (w : VoxelWorld) (p : Vec3Q) : Nat :=
  let cl := world_to_chunk_and_local p
  match chunk_lookup w.chunks cl.1 with
  | some c => c.get_voxel cl.2
  | none => AIR_VOXEL

/-- Chebyshev-box membership of a chunk coordinate around a center. -/
def in_chunk_box (center : IVec3) (rd : Int) (q : IVec3) : Prop :=
  |q.x - center.x| ≤ rd ∧ |q.y - center.y| ≤ rd ∧ |q.z - center.z| ≤ rd

/-- `MAX_RAY_STEPS` (`src/raytracing/traversal.rs:6`). -/
def MAX_RAY_STEPS : Nat := 1000

/-- `MIN_DISTANCE` (`src/raytracing/traversal.rs:7`). -/
def MIN_DISTANCE : ℚ := 1 / 1000

/-- The DDA's hit record.  The source `RayHit` additionally stores `distance`, the
`f32` Euclidean length of `position - origin` (a square root, set to IEEE infinity
on a miss); that field is irrational/IEEE-specific, is never compared by the DDA
path, and is omitted from the rational model. -/
structure RayHitQ where
  hit : Bool
  position : Vec3Q
  normal : Vec3Q
  material_id : Nat
deriving DecidableEq, Repr

/-- `RayHit::new_miss` (zero position, +Y normal, material 0). -/
def RayHitQ.new_miss : RayHitQ :=
  { hit := false, position := ⟨0, 0, 0⟩, normal := ⟨0, 1, 0⟩, material_id := 0 }

/-- `RayHit::new_hit`. -/
def RayHitQ.new_hit (position normal : Vec3Q) (material_id : Nat) : RayHitQ :=
  { hit := true, position := position, normal := normal, material_id := material_id }

/-- `f32::signum` restricted to representable rationals: 1 for non-negative input
(IEEE `+0.0` has signum `1.0`; the `-0.0` case has no rational counterpart). -/
def f32_signum (q : ℚ) : ℚ :=
  if q < 0 then -1 else 1

/-- The stepping loop of `ChunkRaytracer::dda_traverse` (`src/raytracing/traversal.rs:44-90`),
instrumented with the number of loop iterations begun.  `fuel` is the remaining
iteration budget of `for _ in 0..MAX_RAY_STEPS`; exhausting it falls through to the
post-loop `RayHit::new_miss()`.  The integer cell is kept as an `IVec3` (the source
keeps it as floored `f32`s and steps it by `signum` values, i.e. by ±1). -/
def dda_go (octree : SparseVoxelOctree) (chunk_min delta : Vec3Q) (istep : IVec3) :
    Nat → IVec3 → Vec3Q → RayHitQ × Nat
  | 0, _, _ => (RayHitQ.new_miss, 0)
  | fuel + 1, cur, side =>
    if cur.x < 0 ∨ (CHUNK_SIZE : Int) ≤ cur.x ∨ cur.y < 0 ∨ (CHUNK_SIZE : Int) ≤ cur.y ∨
        cur.z < 0 ∨ (CHUNK_SIZE : Int) ≤ cur.z then
      (RayHitQ.new_miss, 1) -- left the chunk: break, post-loop miss
    else
      let v := octree.get_voxel ⟨cur.x.toNat, cur.y.toNat, cur.z.toNat⟩
      if v ≠ AIR_VOXEL then
        let voxel_world_pos : Vec3Q :=
          ⟨chunk_min.x + ((cur.x : ℚ) + 1/2) * VOXEL_SIZE,
           chunk_min.y + ((cur.y : ℚ) + 1/2) * VOXEL_SIZE,
           chunk_min.z + ((cur.z : ℚ) + 1/2) * VOXEL_SIZE⟩
        let normal : Vec3Q :=
          if side.x - delta.x < side.y - delta.y ∧ side.x - delta.x < side.z - delta.z then
            ⟨-(istep.x : ℚ), 0, 0⟩
          else if side.y - delta.y < side.z - delta.z then
            ⟨0, -(istep.y : ℚ), 0⟩
          else
            ⟨0, 0, -(istep.z : ℚ)⟩
        (RayHitQ.new_hit voxel_world_pos normal v, 1)
      else
        if side.x < side.y ∧ side.x < side.z then
          let r := dda_go octree chunk_min delta istep fuel
            ⟨cur.x + istep.x, cur.y, cur.z⟩ ⟨side.x + delta.x, side.y, side.z⟩
          (r.1, r.2 + 1)
        else if side.y < side.z then
          let r := dda_go octree chunk_min delta istep fuel
            ⟨cur.x, cur.y + istep.y, cur.z⟩ ⟨side.x, side.y + delta.y, side.z⟩
          (r.1, r.2 + 1)
        else
          let r := dda_go octree chunk_min delta istep fuel
            ⟨cur.x, cur.y, cur.z + istep.z⟩ ⟨side.x, side.y, side.z + delta.z⟩
          (r.1, r.2 + 1)

/-- `ChunkRaytracer::dda_traverse` (`src/raytracing/traversal.rs:29`) with the
iteration count of its stepping loop.  `delta = |1/direction|` componentwise: a zero
direction component gives `+inf` in `f32` but `0` in `ℚ` (rational reciprocal of
zero); the bounded-iteration properties proved below hold regardless of the values
`delta` and `side` take. -/
def dda_traverse_count (octree : SparseVoxelOctree) (ray_o ray_d chunk_min : Vec3Q)
    (t_start : ℚ) : RayHitQ × Nat :=
  let entry := ray_at ray_o ray_d t_start
  let lx := (entry.x - chunk_min.x) / VOXEL_SIZE
  let ly := (entry.y - chunk_min.y) / VOXEL_SIZE
  let lz := (entry.z - chunk_min.z) / VOXEL_SIZE
  let cur : IVec3 := ⟨⌊lx⌋, ⌊ly⌋, ⌊lz⌋⟩
  let istep : IVec3 :=
    ⟨if ray_d.x < 0 then -1 else 1, if ray_d.y < 0 then -1 else 1,
     if ray_d.z < 0 then -1 else 1⟩
  let delta : Vec3Q := ⟨|1 / ray_d.x|, |1 / ray_d.y|, |1 / ray_d.z|⟩
  let side : Vec3Q :=
    ⟨(f32_signum ray_d.x * ((cur.x : ℚ) - lx) + f32_signum ray_d.x * (1/2) + 1/2) * delta.x,
     (f32_signum ray_d.y * ((cur.y : ℚ) - ly) + f32_signum ray_d.y * (1/2) + 1/2) * delta.y,
     (f32_signum ray_d.z * ((cur.z : ℚ) - lz) + f32_signum ray_d.z * (1/2) + 1/2) * delta.z⟩
  dda_go octree chunk_min delta istep MAX_RAY_STEPS cur side

/-- `ChunkRaytracer::dda_traverse`, result only. -/
def dda_traverse (octree : SparseVoxelOctree) (ray_o ray_d chunk_min : Vec3Q)
    (t_start : ℚ) : RayHitQ :=
  (dda_traverse_count octree ray_o ray_d chunk_min t_start).1

/-- `ChunkRaytracer::trace_chunk` (`src/raytracing/traversal.rs:13`): bounds-reject
against the chunk's box, then DDA from the (clamped) entry parameter. -/
def trace_chunk (ray_o ray_d : Vec3Q) (c : VoxelChunk) : RayHitQ :=
  let chunk_min := chunk_pos_to_world_pos c.position
  let chunk_max : Vec3Q :=
    ⟨chunk_min.x + CHUNK_SIZE_F * VOXEL_SIZE, chunk_min.y + CHUNK_SIZE_F * VOXEL_SIZE,
     chunk_min.z + CHUNK_SIZE_F * VOXEL_SIZE⟩
  match ray_aabb_intersect ray_o ray_d chunk_min chunk_max with
  | some tnf =>
      if 0 < tnf.2 then
        dda_traverse c.octree ray_o ray_d chunk_min (max tnf.1 MIN_DISTANCE)
      else
        RayHitQ.new_miss
  | none => RayHitQ.new_miss

/-- A world with no resident chunks and the constructor's default render distance 8
(`VoxelWorld::new` inserts materials and a noise source, abstracted by `gen`). -/
def empty_world : VoxelWorld :=
  { chunks := [], gen := VoxelChunk.new, render_distance := 8 }

/-- An empty world with render distance 1, for the concrete streaming scenario. -/
def small_world : VoxelWorld :=
  { chunks := [], gen := VoxelChunk.new, render_distance := 1 }

/-! ## Octree descent lemmas -/

/-- Writing air down the descent never changes the octree nor allocates, at any level
whose size is a positive power of two (the sizes that actually occur are
32, 16, 8, 4, 2): a missing child returns early, an existing path is only read, and
the loop breaks at size 2 before the `node_size == 1` store could fire. -/
theorem set_voxel_go_air_eq (target : IVec3) :
    ∀ (fuel : Nat) (s : SparseVoxelOctree) (ni k : Nat) (np : IVec3), 1 ≤ k →
      set_voxel_go target AIR_VOXEL fuel s ni (2 ^ k) np = (s, []) := by
  intro fuel
  induction fuel with
  | zero => intro s ni k np _; rfl
  | succ n ih =>
    intro s ni k np hk
    have h1 : 1 < 2 ^ k := Nat.one_lt_pow (by omega) (by norm_num)
    have hhalf : 2 ^ k / 2 = 2 ^ (k - 1) := by
      have h2k : 2 ^ k = 2 ^ (k - 1) * 2 := by
        rw [← Nat.pow_succ]
        congr 1
        omega
      omega
    rw [set_voxel_go]
    rw [if_pos h1]
    by_cases hch : (s.node_at ni).has_child
        (octant_index (octant_offset np (2 ^ k / 2) target)) = true
    · rw [if_neg (not_not_intro hch)]
      by_cases h2 : 2 ^ k = 2
      · rw [if_pos h2]
      · rw [if_neg h2, hhalf]
        have hk2 : 2 ≤ k := by
          rcases Nat.eq_or_lt_of_le hk with h | h
          · exact absurd (h ▸ rfl : 2 ^ k = 2) h2
          · omega
        exact ih s _ (k - 1) _ (by omega)
    · rw [if_pos hch]
      rw [if_pos rfl]

/-- `update_at` never touches the free list. -/
theorem update_at_free_indices (s : SparseVoxelOctree) (i : Nat) (f : OctreeNode → OctreeNode) :
    (s.update_at i f).free_indices = s.free_indices := rfl

/-- `update_at` never changes the pool size. -/
theorem update_at_length (s : SparseVoxelOctree) (i : Nat) (f : OctreeNode → OctreeNode) :
    (s.update_at i f).nodes.length = s.nodes.length := by
  simp [SparseVoxelOctree.update_at]

/-- `update_at` never changes the root size. -/
theorem update_at_root_size (s : SparseVoxelOctree) (i : Nat) (f : OctreeNode → OctreeNode) :
    (s.update_at i f).root_size = s.root_size := rfl

/-- Allocation never shrinks the pool. -/
theorem allocate_node_length_le (s : SparseVoxelOctree) :
    s.nodes.length ≤ s.allocate_node.2.nodes.length := by
  unfold SparseVoxelOctree.allocate_node
  cases h : s.free_indices with
  | nil => simp
  | cons i rest => simp

/-- Allocation from an empty free list keeps it empty. -/
theorem allocate_node_free_nil (s : SparseVoxelOctree) (h : s.free_indices = []) :
    s.allocate_node.2.free_indices = [] := by
  unfold SparseVoxelOctree.allocate_node
  rw [h]

/-- Allocation preserves the root size. -/
theorem allocate_node_root_size (s : SparseVoxelOctree) :
    s.allocate_node.2.root_size = s.root_size := by
  unfold SparseVoxelOctree.allocate_node
  cases h : s.free_indices with
  | nil => rfl
  | cons i rest => rfl

/-- The descent of `set_voxel` never puts anything on the free list: starting from an
empty free list it ends with an empty free list (allocation only pops and
`deallocate_node` is never called). -/
theorem set_voxel_go_free_nil (target : IVec3) (v : Nat) :
    ∀ (fuel : Nat) (s : SparseVoxelOctree) (ni ns : Nat) (np : IVec3),
      s.free_indices = [] → (set_voxel_go target v fuel s ni ns np).1.free_indices = [] := by
  intro fuel
  induction fuel with
  | zero => intro s ni ns np h; exact h
  | succ n ih =>
    intro s ni ns np h
    simp only [set_voxel_go]
    by_cases h1 : 1 < ns
    · rw [if_pos h1]
      by_cases hch : (s.node_at ni).has_child (octant_index (octant_offset np (ns / 2) target)) = true
      · rw [if_neg (not_not_intro hch)]
        by_cases h2 : ns = 2
        · rw [if_pos h2]
          exact h
        · rw [if_neg h2]
          exact ih _ _ _ _ h
      · rw [if_pos hch]
        by_cases hair : v = AIR_VOXEL
        · rw [if_pos hair]
          exact h
        · rw [if_neg hair]
          by_cases h2 : ns = 2
          · rw [if_pos h2]
            exact h
          · rw [if_neg h2]
            refine ih _ _ _ _ ?_
            by_cases hcnt : u32_count_ones
                ((s.allocate_node.2.update_at ni
                  (fun nd => nd.set_child (octant_index (octant_offset np (ns / 2) target))
                    false)).node_at ni).child_mask = 1
            · rw [if_pos hcnt, update_at_free_indices, update_at_free_indices]
              exact allocate_node_free_nil s h
            · rw [if_neg hcnt, update_at_free_indices]
              exact allocate_node_free_nil s h
    · rw [if_neg h1]
      by_cases hone : ns = 1
      · rw [if_pos hone]
        exact h
      · rw [if_neg hone]
        exact h

/-- The descent of `set_voxel` never shrinks the node pool. -/
theorem set_voxel_go_length_le (target : IVec3) (v : Nat) :
    ∀ (fuel : Nat) (s : SparseVoxelOctree) (ni ns : Nat) (np : IVec3),
      s.nodes.length ≤ (set_voxel_go target v fuel s ni ns np).1.nodes.length := by
  intro fuel
  induction fuel with
  | zero => intro s ni ns np; exact le_refl _
  | succ n ih =>
    intro s ni ns np
    simp only [set_voxel_go]
    by_cases h1 : 1 < ns
    · rw [if_pos h1]
      by_cases hch : (s.node_at ni).has_child (octant_index (octant_offset np (ns / 2) target)) = true
      · rw [if_neg (not_not_intro hch)]
        by_cases h2 : ns = 2
        · rw [if_pos h2]
        · rw [if_neg h2]
          exact ih _ _ _ _
      · rw [if_pos hch]
        by_cases hair : v = AIR_VOXEL
        · rw [if_pos hair]
        · rw [if_neg hair]
          by_cases h2 : ns = 2
          · rw [if_pos h2]
            rw [update_at_length]
          · rw [if_neg h2]
            refine le_trans ?_ (ih _ _ _ _)
            by_cases hcnt : u32_count_ones
                ((s.allocate_node.2.update_at ni
                  (fun nd => nd.set_child (octant_index (octant_offset np (ns / 2) target))
                    false)).node_at ni).child_mask = 1
            · rw [if_pos hcnt, update_at_length, update_at_length]
              exact allocate_node_length_le s
            · rw [if_neg hcnt, update_at_length]
              exact allocate_node_length_le s
    · rw [if_neg h1]
      by_cases hone : ns = 1
      · rw [if_pos hone]
        rw [update_at_length]
      · rw [if_neg hone]

/-- `set_voxel` keeps an empty free list empty. -/
theorem set_voxel_free_nil (s : SparseVoxelOctree) (p : LocalVoxelPos) (v : Nat)
    (h : s.free_indices = []) : (s.set_voxel p v).free_indices = [] :=
  set_voxel_go_free_nil p.toIVec3 v s.root_size s 0 s.root_size ⟨0, 0, 0⟩ h

/-- `set_voxel` never shrinks the node pool. -/
theorem set_voxel_node_count_le (s : SparseVoxelOctree) (p : LocalVoxelPos) (v : Nat) :
    s.node_count ≤ (s.set_voxel p v).node_count :=
  set_voxel_go_length_le p.toIVec3 v s.root_size s 0 s.root_size ⟨0, 0, 0⟩

/-- Any edit sequence from a state with an empty free list keeps the free list empty. -/
theorem apply_writes_free_nil (ws : List (LocalVoxelPos × Nat)) :
    ∀ (s : SparseVoxelOctree), s.free_indices = [] → (apply_writes s ws).free_indices = [] := by
  induction ws with
  | nil => intro s h; exact h
  | cons pv rest ih =>
    intro s h
    exact ih _ (set_voxel_free_nil s pv.1 pv.2 h)

/-! ## Claim C1 — set_voxel / get_voxel round trip -/

/-- C1: the claimed round trip `set_voxel(p, v); get_voxel(p) == v` FAILS on the code.
Evaluating the embedded source at the failing input: on a fresh octree,
`set_voxel((0,0,0), 1)` followed by `get_voxel((0,0,0))` returns air (0), not 1.
The descent loop of `set_voxel` always breaks with `node_size == 2`, so the
post-loop store guarded by `node_size == 1` is dead code and no `voxel_id` field in
the pool is ever written (third conjunct: every node of the resulting pool still
holds air). -/
theorem c1_set_then_get_returns_air :
    (SparseVoxelOctree.new.set_voxel ⟨0, 0, 0⟩ 1).get_voxel ⟨0, 0, 0⟩ = AIR_VOXEL ∧
    (SparseVoxelOctree.new.set_voxel ⟨0, 0, 0⟩ 1).get_voxel ⟨0, 0, 0⟩ ≠ 1 ∧
    ((SparseVoxelOctree.new.set_voxel ⟨0, 0, 0⟩ 1).nodes.all
      (fun n => decide (n.voxel_id = AIR_VOXEL))) = true := by
  decide

/-! ## Claim C2 — contiguous child placement invariant -/

/-- C2: the claimed placement invariant FAILS on a state reachable by two writes.
After `set_voxel((0,0,0), 1)` and `set_voxel((16,0,0), 1)` from a fresh octree, the
internal child created for octant 1 of the root was allocated at pool index 5
(first conjunct, from the instrumented allocation log), the root's child bit 1 is
set and is not a leaf, yet `child_ptr + popcount(child_mask & (bits below 1))`
evaluates to `1 + 1 = 2 ≠ 5`: the root's second child is not stored contiguously
after its first, so count-of-set-bits-below addresses the wrong node. -/
theorem c2_second_child_breaks_contiguity :
    ((SparseVoxelOctree.new.set_voxel ⟨0, 0, 0⟩ 1).set_voxel_log ⟨16, 0, 0⟩ 1).2 =
      [(0, 1, 5)] ∧
    (((SparseVoxelOctree.new.set_voxel ⟨0, 0, 0⟩ 1).set_voxel ⟨16, 0, 0⟩ 1).node_at 0).has_child
      1 = true ∧
    (((SparseVoxelOctree.new.set_voxel ⟨0, 0, 0⟩ 1).set_voxel ⟨16, 0, 0⟩ 1).node_at
      0).is_leaf_child 1 = false ∧
    (((SparseVoxelOctree.new.set_voxel ⟨0, 0, 0⟩ 1).set_voxel ⟨16, 0, 0⟩ 1).node_at 0).child_ptr +
      mask_rank
        (((SparseVoxelOctree.new.set_voxel ⟨0, 0, 0⟩ 1).set_voxel ⟨16, 0, 0⟩ 1).node_at
          0).child_mask 1 = 2 ∧
    (5 : Nat) ≠ 2 := by
  decide

/-! ## Claim C7 — writing air to an unwritten position is a no-op -/

/-- C7: `set_voxel(p, air)` is a no-op on every octree whose root size is
`CHUNK_SIZE` (in particular on every octree reachable from `new`, and in particular
for positions never written): the state is returned unchanged, so `node_count` and
the whole pool are untouched and nothing is allocated.  This holds without any
assumption on the write history: an absent child makes the call return early, and
an existing path is only read. -/
theorem c7_set_air_is_noop (s : SparseVoxelOctree) (p : LocalVoxelPos)
    (h : s.root_size = CHUNK_SIZE) :
    s.set_voxel p AIR_VOXEL = s ∧ (s.set_voxel p AIR_VOXEL).node_count = s.node_count := by
  have hmain : s.set_voxel p AIR_VOXEL = s := by
    unfold SparseVoxelOctree.set_voxel SparseVoxelOctree.set_voxel_log
    rw [h]
    rw [show CHUNK_SIZE = 2 ^ 5 from rfl]
    rw [set_voxel_go_air_eq p.toIVec3 (2 ^ 5) s 0 5 ⟨0, 0, 0⟩ (by omega)]
  exact ⟨hmain, by rw [hmain]⟩

/-- C7 witness: the no-op on a concrete fresh octree at position (1,2,3). -/
theorem c7_set_air_is_noop_witness :
    SparseVoxelOctree.new.root_size = CHUNK_SIZE ∧
    SparseVoxelOctree.new.set_voxel ⟨1, 2, 3⟩ AIR_VOXEL = SparseVoxelOctree.new :=
  ⟨rfl, (c7_set_air_is_noop SparseVoxelOctree.new ⟨1, 2, 3⟩ rfl).1⟩

/-! ## Claim C9 — LocalVoxelPos construction rejects out-of-range components -/

/-- C9: `LocalVoxelPos::new` fails (no value is returned; the `debug_assert`
panics) whenever a component is `>= CHUNK_SIZE`, and every constructed value has
all components in `[0, CHUNK_SIZE)`. -/
theorem c9_local_voxel_pos_new_rejects (x y z : Nat) :
    (CHUNK_SIZE ≤ x ∨ CHUNK_SIZE ≤ y ∨ CHUNK_SIZE ≤ z → LocalVoxelPos.new x y z = none) ∧
    ∀ p : LocalVoxelPos, LocalVoxelPos.new x y z = some p →
      p.x < CHUNK_SIZE ∧ p.y < CHUNK_SIZE ∧ p.z < CHUNK_SIZE := by
  constructor
  · intro h
    unfold LocalVoxelPos.new
    rw [if_neg (by omega)]
  · intro p hp
    unfold LocalVoxelPos.new at hp
    by_cases hc : x < CHUNK_SIZE ∧ y < CHUNK_SIZE ∧ z < CHUNK_SIZE
    · rw [if_pos hc] at hp
      injection hp with h2
      rw [← h2]
      exact ⟨hc.1, hc.2.1, hc.2.2⟩
    · rw [if_neg hc] at hp
      exact absurd hp (by simp)

/-- C9 witness: a component equal to 32 is rejected. -/
theorem c9_local_voxel_pos_new_rejects_witness : LocalVoxelPos.new 32 0 0 = none :=
  (c9_local_voxel_pos_new_rejects 32 0 0).1 (Or.inl (by decide))

/-! ## Claim C10 — no recycling under the public operations -/

/-- C10: under any sequence of public edits from a fresh octree the free list stays
empty and the node count never decreases (`deallocate_node` is not called by
`set_voxel`, and `get_voxel` is read-only by construction); only `clear` resets the
pool to the single empty root. -/
theorem c10_free_list_empty_and_monotone (ws : List (LocalVoxelPos × Nat))
    (s : SparseVoxelOctree) (p : LocalVoxelPos) (v : Nat) :
    (apply_writes SparseVoxelOctree.new ws).free_indices = [] ∧
    s.node_count ≤ (s.set_voxel p v).node_count ∧
    (apply_writes SparseVoxelOctree.new ws).node_count ≤
      (apply_writes SparseVoxelOctree.new (ws ++ [(p, v)])).node_count ∧
    s.clear.nodes = [OctreeNode.new_empty] ∧ s.clear.free_indices = [] := by
  refine ⟨apply_writes_free_nil ws SparseVoxelOctree.new rfl,
    set_voxel_node_count_le s p v, ?_, rfl, rfl⟩
  unfold apply_writes
  rw [List.foldl_append]
  simp only [List.foldl_cons, List.foldl_nil]
  exact set_voxel_node_count_le _ p v

/-! ## Claim C5 — reads and writes at non-resident chunks -/

/-- C5: for any world position whose chunk is not resident, `VoxelWorld::get_voxel`
returns the air id and `VoxelWorld::set_voxel` returns the world unchanged. -/
theorem c5_nonresident_read_air_write_noop (w : VoxelWorld) (p : Vec3Q) (v : Nat)
    (h : chunk_lookup w.chunks (world_to_chunk_and_local p).1 = none) :
    w.get_voxel p = AIR_VOXEL ∧ w.set_voxel p v = w := by
  constructor
  · simp only [VoxelWorld.get_voxel, h]
  · simp only [VoxelWorld.set_voxel, h]

/-- C5 witness: reading and writing a position of the never-loaded empty world. -/
theorem c5_nonresident_read_air_write_noop_witness :
    chunk_lookup empty_world.chunks (world_to_chunk_and_local ⟨1, 2, 3⟩).1 = none ∧
    (empty_world.get_voxel ⟨1, 2, 3⟩ = AIR_VOXEL ∧
      empty_world.set_voxel ⟨1, 2, 3⟩ 5 = empty_world) :=
  ⟨rfl, c5_nonresident_read_air_write_noop empty_world ⟨1, 2, 3⟩ 5 rfl⟩

/-! ## Chunk-map and box lemmas for streaming -/

/-- Membership in the inclusive integer range list. -/
theorem mem_int_range {a b x : Int} : x ∈ int_range a b ↔ a ≤ x ∧ x ≤ b := by
  unfold int_range
  simp only [List.mem_map, List.mem_range]
  constructor
  · rintro ⟨i, hi, rfl⟩
    omega
  · intro h
    exact ⟨(x - a).toNat, by omega, by omega⟩

/-- Membership in the enumerated chunk box. -/
theorem mem_box_list {c : IVec3} {rd : Int} {q : IVec3} :
    q ∈ box_list c rd ↔ in_chunk_box c rd q := by
  unfold box_list in_chunk_box
  simp only [List.mem_flatMap, List.mem_map, mem_int_range]
  constructor
  · rintro ⟨dx, hdx, dy, hdy, dz, hdz, rfl⟩
    dsimp only
    exact ⟨abs_le.mpr (by omega), abs_le.mpr (by omega), abs_le.mpr (by omega)⟩
  · rintro ⟨h1, h2, h3⟩
    rw [abs_le] at h1 h2 h3
    refine ⟨q.x - c.x, by omega, q.y - c.y, by omega, q.z - c.z, by omega, ?_⟩
    cases q
    dsimp only at h1 h2 h3 ⊢
    rw [IVec3.mk.injEq]
    refine ⟨by omega, by omega, by omega⟩

/-- `contains_key` agrees with key-list membership. -/
theorem chunk_contains_iff (m : List (IVec3 × VoxelChunk)) (k : IVec3) :
    chunk_contains m k = true ↔ k ∈ chunk_keys m := by
  induction m with
  | nil => simp [chunk_contains, chunk_lookup, chunk_keys]
  | cons p rest ih =>
    by_cases h : p.1 = k
    · simp [chunk_contains, chunk_lookup, chunk_keys, h]
    · simp only [chunk_contains, chunk_lookup, if_neg h, chunk_keys, List.map_cons,
        List.mem_cons] at ih ⊢
      rw [ih]
      constructor
      · exact fun hm => Or.inr hm
      · rintro (hq | hm)
        · exact absurd hq.symm h
        · exact hm

/-- A missing key is exactly a `false` `contains_key`. -/
theorem chunk_contains_eq_false_iff (m : List (IVec3 × VoxelChunk)) (k : IVec3) :
    chunk_contains m k = false ↔ k ∉ chunk_keys m := by
  rw [← chunk_contains_iff]
  cases chunk_contains m k <;> simp

/-- Key membership after removal. -/
theorem mem_keys_chunk_remove (m : List (IVec3 × VoxelChunk)) (k q : IVec3) :
    q ∈ chunk_keys (chunk_remove m k) ↔ q ∈ chunk_keys m ∧ q ≠ k := by
  unfold chunk_keys chunk_remove
  simp only [List.mem_map, List.mem_filter, decide_eq_true_eq]
  constructor
  · rintro ⟨p, ⟨hp, hne⟩, rfl⟩
    exact ⟨⟨p, hp, rfl⟩, hne⟩
  · rintro ⟨⟨p, hp, rfl⟩, hne⟩
    exact ⟨p, ⟨hp, hne⟩, rfl⟩

/-- Key membership after insertion. -/
theorem mem_keys_chunk_insert (k : IVec3) (c : VoxelChunk) (m : List (IVec3 × VoxelChunk))
    (q : IVec3) : q ∈ chunk_keys (chunk_insert k c m) ↔ q = k ∨ q ∈ chunk_keys m := by
  unfold chunk_insert
  rw [show chunk_keys ((k, c) :: chunk_remove m k) = k :: chunk_keys (chunk_remove m k) from rfl]
  rw [List.mem_cons, mem_keys_chunk_remove]
  constructor
  · rintro (h | ⟨h, _⟩)
    · exact Or.inl h
    · exact Or.inr h
  · rintro (h | h)
    · exact Or.inl h
    · by_cases hqk : q = k
      · exact Or.inl hqk
      · exact Or.inr ⟨h, hqk⟩

/-- Key membership after the insertion fold of `update_around_player`. -/
theorem mem_keys_foldl_insert (l : List (IVec3 × VoxelChunk)) :
    ∀ (m : List (IVec3 × VoxelChunk)) (q : IVec3),
      q ∈ chunk_keys (l.foldl (fun m qc => chunk_insert qc.1 qc.2 m) m) ↔
        q ∈ chunk_keys m ∨ q ∈ l.map (fun p => p.1) := by
  induction l with
  | nil => intro m q; simp
  | cons a l ih =>
    intro m q
    rw [List.foldl_cons, ih, mem_keys_chunk_insert]
    simp only [List.map_cons, List.mem_cons]
    tauto

/-- Key membership after the removal fold of `update_around_player`. -/
theorem mem_keys_foldl_remove (l : List IVec3) :
    ∀ (m : List (IVec3 × VoxelChunk)) (q : IVec3),
      q ∈ chunk_keys (l.foldl (fun m k => chunk_remove m k) m) ↔
        q ∈ chunk_keys m ∧ q ∉ l := by
  induction l with
  | nil => intro m q; simp
  | cons a l ih =>
    intro m q
    rw [List.foldl_cons, ih, mem_keys_chunk_remove]
    simp only [List.mem_cons]
    tauto

/-- The resident-set characterization of `update_around_player`: afterwards a chunk
coordinate is resident iff it lies in the inclusive render-distance box around the
viewpoint's chunk coordinate, whatever was resident before. -/
theorem update_around_player_mem (w : VoxelWorld) (vp : Vec3Q) (q : IVec3) :
    q ∈ chunk_keys ((w.update_around_player vp).chunks) ↔
      in_chunk_box (chunk_pos_from_world_pos vp) w.render_distance q := by
  simp only [VoxelWorld.update_around_player]
  simp only [mem_keys_foldl_remove, List.mem_filter, mem_keys_foldl_insert, List.map_map,
    Function.comp_def, List.map_id, List.map_id', decide_eq_true_eq, Bool.not_eq_true',
    chunk_contains_eq_false_iff, mem_box_list, in_chunk_box]
  constructor
  · rintro ⟨hA, hnot⟩
    have hno : ¬(w.render_distance < |q.x - (chunk_pos_from_world_pos vp).x| ∨
        w.render_distance < |q.y - (chunk_pos_from_world_pos vp).y| ∨
        w.render_distance < |q.z - (chunk_pos_from_world_pos vp).z|) :=
      fun hO => hnot ⟨hA, hO⟩
    push_neg at hno
    exact ⟨hno.1, hno.2.1, hno.2.2⟩
  · intro hbox
    constructor
    · by_cases hk : q ∈ chunk_keys w.chunks
      · exact Or.inl hk
      · exact Or.inr ⟨hbox, hk⟩
    · rintro ⟨_, hO⟩
      rcases hO with h | h | h
      · exact (not_lt.mpr hbox.1) h
      · exact (not_lt.mpr hbox.2.1) h
      · exact (not_lt.mpr hbox.2.2) h

/-- `update_around_player` does not change the render distance. -/
theorem update_around_player_rd (w : VoxelWorld) (vp : Vec3Q) :
    (w.update_around_player vp).render_distance = w.render_distance := rfl

/-- The world origin lies in chunk (0,0,0). -/
theorem chunk_pos_from_world_pos_zero : chunk_pos_from_world_pos ⟨0, 0, 0⟩ = ⟨0, 0, 0⟩ := by
  simp [chunk_pos_from_world_pos, CHUNK_SIZE_F, VOXEL_SIZE]

/-! ## Claim C4 — streaming keeps exactly the render-distance box resident -/

/-- C4: after `update_around_player` the resident chunk set is exactly the inclusive
box of side `2 * render_distance + 1` around the viewpoint's chunk coordinate,
regardless of the previous resident set (first conjunct); calling it twice with the
same viewpoint leaves the resident set unchanged (second conjunct); and with render
distance 1 and the viewpoint at the origin the resident set is exactly the 27
chunks with every coordinate in `{-1, 0, 1}` (third conjunct). -/
theorem c4_update_around_player_resident_box (w : VoxelWorld) (vp : Vec3Q) (q : IVec3) :
    (q ∈ chunk_keys ((w.update_around_player vp).chunks) ↔
      in_chunk_box (chunk_pos_from_world_pos vp) w.render_distance q) ∧
    (q ∈ chunk_keys (((w.update_around_player vp).update_around_player vp).chunks) ↔
      q ∈ chunk_keys ((w.update_around_player vp).chunks)) ∧
    (w.render_distance = 1 →
      (q ∈ chunk_keys ((w.update_around_player ⟨0, 0, 0⟩).chunks) ↔
        (q.x = -1 ∨ q.x = 0 ∨ q.x = 1) ∧ (q.y = -1 ∨ q.y = 0 ∨ q.y = 1) ∧
          (q.z = -1 ∨ q.z = 0 ∨ q.z = 1))) := by
  refine ⟨update_around_player_mem w vp q, ?_, ?_⟩
  · rw [update_around_player_mem, update_around_player_mem, update_around_player_rd]
  · intro h1
    rw [update_around_player_mem, chunk_pos_from_world_pos_zero, h1]
    unfold in_chunk_box
    dsimp only
    rw [sub_zero, sub_zero, sub_zero, abs_le, abs_le, abs_le]
    constructor
    · rintro ⟨hx, hy, hz⟩
      exact ⟨by omega, by omega, by omega⟩
    · rintro ⟨hx, hy, hz⟩
      exact ⟨by omega, by omega, by omega⟩

/-- C4 witness: in a render-distance-1 world updated around the origin, the corner
chunk (1,1,0) is resident. -/
theorem c4_update_around_player_resident_box_witness :
    small_world.render_distance = 1 ∧
    (⟨1, 1, 0⟩ : IVec3) ∈ chunk_keys ((small_world.update_around_player ⟨0, 0, 0⟩).chunks) :=
  ⟨rfl, ((c4_update_around_player_resident_box small_world ⟨0, 0, 0⟩ ⟨1, 1, 0⟩).2.2 rfl).mpr
    (by decide)⟩


/-! ## Slab lemmas for the ray/AABB test -/

/-- One slab of the slab method, exactly: with a non-zero direction component the
parameter interval `[slab_lo, slab_hi]` is the preimage of the closed slab `[a, b]`
under the ray parameterization. -/
theorem slab_mem (a b oc dc t : ℚ) (hd : dc ≠ 0) (hab : a ≤ b) :
    slab_lo a b oc dc ≤ t ∧ t ≤ slab_hi a b oc dc ↔
      a ≤ oc + dc * t ∧ oc + dc * t ≤ b := by
  unfold slab_lo slab_hi
  rw [mul_one_div, mul_one_div]
  rcases hd.lt_or_lt with hneg | hpos
  · have hle : (b - oc) / dc ≤ (a - oc) / dc := (div_le_div_right_of_neg hneg).mpr (by linarith)
    rw [min_eq_right hle, max_eq_left hle]
    rw [div_le_iff_of_neg hneg, le_div_iff_of_neg hneg]
    constructor
    · rintro ⟨h1, h2⟩
      constructor <;> linarith [mul_comm dc t]
    · rintro ⟨h1, h2⟩
      constructor <;> linarith [mul_comm dc t]
  · have hle : (a - oc) / dc ≤ (b - oc) / dc :=
      div_le_div_of_nonneg_right (by linarith) hpos.le
    rw [min_eq_left hle, max_eq_right hle]
    rw [div_le_iff₀ hpos, le_div_iff₀ hpos]
    constructor
    · rintro ⟨h1, h2⟩
      constructor <;> linarith [mul_comm dc t]
    · rintro ⟨h1, h2⟩
      constructor <;> linarith [mul_comm dc t]

/-- An origin strictly inside a slab gives a negative entry and positive exit. -/
theorem slab_interior (a b oc dc : ℚ) (hd : dc ≠ 0) (h1 : a < oc) (h2 : oc < b) :
    slab_lo a b oc dc < 0 ∧ 0 < slab_hi a b oc dc := by
  unfold slab_lo slab_hi
  rw [mul_one_div, mul_one_div]
  rcases hd.lt_or_lt with hneg | hpos
  · constructor
    · exact lt_of_le_of_lt (min_le_right _ _) (div_neg_of_pos_of_neg (by linarith) hneg)
    · exact lt_of_lt_of_le (div_pos_of_neg_of_neg (by linarith) hneg) (le_max_left _ _)
  · constructor
    · exact lt_of_le_of_lt (min_le_left _ _) (div_neg_of_neg_of_pos (by linarith) hpos)
    · exact lt_of_lt_of_le (div_pos (by linarith) hpos) (le_max_right _ _)

/-- An origin beyond a slab with the direction moving further away gives a
negative exit parameter. -/
theorem slab_receding (a b oc dc : ℚ) (hab : a ≤ b)
    (h : (b < oc ∧ 0 < dc) ∨ (oc < a ∧ dc < 0)) : slab_hi a b oc dc < 0 := by
  unfold slab_hi
  rw [mul_one_div, mul_one_div]
  rcases h with ⟨hb, hd⟩ | ⟨ha, hd⟩
  · exact max_lt (div_neg_of_neg_of_pos (by linarith) hd) (div_neg_of_neg_of_pos (by linarith) hd)
  · exact max_lt (div_neg_of_pos_of_neg (by linarith) hd) (div_neg_of_pos_of_neg (by linarith) hd)

/-- The point of the ray at parameter `t` is in the closed box iff `t` lies between
the unclamped slab entry maximum and the exit minimum. -/
theorem in_aabb_iff_slabs (o d bmin bmax : Vec3Q) (t : ℚ)
    (hx : d.x ≠ 0) (hy : d.y ≠ 0) (hz : d.z ≠ 0)
    (hbx : bmin.x ≤ bmax.x) (hby : bmin.y ≤ bmax.y) (hbz : bmin.z ≤ bmax.z) :
    in_aabb (ray_at o d t) bmin bmax ↔
      aabb_tmin o d bmin bmax ≤ t ∧ t ≤ aabb_tfar o d bmin bmax := by
  have hxs := slab_mem bmin.x bmax.x o.x d.x t hx hbx
  have hys := slab_mem bmin.y bmax.y o.y d.y t hy hby
  have hzs := slab_mem bmin.z bmax.z o.z d.z t hz hbz
  unfold in_aabb ray_at aabb_tmin aabb_tfar
  dsimp only
  constructor
  · rintro ⟨h1, h2, h3, h4, h5, h6⟩
    obtain ⟨hx1, hx2⟩ := hxs.mpr ⟨h1, h2⟩
    obtain ⟨hy1, hy2⟩ := hys.mpr ⟨h3, h4⟩
    obtain ⟨hz1, hz2⟩ := hzs.mpr ⟨h5, h6⟩
    exact ⟨max_le (max_le hx1 hy1) hz1, le_min (le_min hx2 hy2) hz2⟩
  · rintro ⟨hmin, hmax⟩
    have hx1 := le_trans (le_trans (le_max_left _ _) (le_max_left _ _)) hmin
    have hy1 := le_trans (le_trans (le_max_right _ _) (le_max_left _ _)) hmin
    have hz1 := le_trans (le_max_right _ _) hmin
    have hx2 := le_trans hmax (le_trans (min_le_left _ _) (min_le_left _ _))
    have hy2 := le_trans hmax (le_trans (min_le_left _ _) (min_le_right _ _))
    have hz2 := le_trans hmax (min_le_right _ _)
    obtain ⟨ha1, ha2⟩ := hxs.mp ⟨hx1, hx2⟩
    obtain ⟨hb1, hb2⟩ := hys.mp ⟨hy1, hy2⟩
    obtain ⟨hc1, hc2⟩ := hzs.mp ⟨hz1, hz2⟩
    exact ⟨ha1, ha2, hb1, hb2, hc1, hc2⟩

/-! ## Claim C6 — ray/AABB slab intersection -/

/-- C6: over exact arithmetic, for a ray with non-zero (in `f32`, finite-reciprocal)
direction components and a well-formed box: the test returns `none` exactly when no
forward parameter `t > 0` puts the ray inside the closed box (the interval is empty
or entirely behind the origin); any returned pair satisfies `0 ≤ t_near ≤ t_far`
and `t_far > 0`; an origin strictly inside the box yields `Some` with `t_near = 0`;
and a ray on the far side of a slab pointing away yields `None`. -/
theorem c6_ray_aabb_intersect_interval (o d bmin bmax : Vec3Q)
    (hx : d.x ≠ 0) (hy : d.y ≠ 0) (hz : d.z ≠ 0)
    (_hnorm : d.x ^ 2 + d.y ^ 2 + d.z ^ 2 = 1)
    (hbx : bmin.x ≤ bmax.x) (hby : bmin.y ≤ bmax.y) (hbz : bmin.z ≤ bmax.z) :
    (ray_aabb_intersect o d bmin bmax = none ↔
      ¬ ∃ t : ℚ, 0 < t ∧ in_aabb (ray_at o d t) bmin bmax) ∧
    (∀ tn tf : ℚ, ray_aabb_intersect o d bmin bmax = some (tn, tf) →
      0 ≤ tn ∧ tn ≤ tf ∧ 0 < tf) ∧
    (in_aabb_interior o bmin bmax →
      ∃ tf : ℚ, 0 < tf ∧ ray_aabb_intersect o d bmin bmax = some (0, tf)) ∧
    ((bmax.x < o.x ∧ 0 < d.x) ∨ (o.x < bmin.x ∧ d.x < 0) ∨
      (bmax.y < o.y ∧ 0 < d.y) ∨ (o.y < bmin.y ∧ d.y < 0) ∨
      (bmax.z < o.z ∧ 0 < d.z) ∨ (o.z < bmin.z ∧ d.z < 0) →
      ray_aabb_intersect o d bmin bmax = none) := by
  have hmem := fun t => in_aabb_iff_slabs o d bmin bmax t hx hy hz hbx hby hbz
  have hiff : (∃ t : ℚ, 0 < t ∧ in_aabb (ray_at o d t) bmin bmax) ↔
      (aabb_tnear o d bmin bmax ≤ aabb_tfar o d bmin bmax ∧ 0 < aabb_tfar o d bmin bmax) := by
    constructor
    · rintro ⟨t, ht, hin⟩
      obtain ⟨h1, h2⟩ := (hmem t).mp hin
      exact ⟨max_le (le_trans h1 h2) (le_of_lt (lt_of_lt_of_le ht h2)),
        lt_of_lt_of_le ht h2⟩
    · rintro ⟨hle, hpos⟩
      exact ⟨aabb_tfar o d bmin bmax, hpos,
        (hmem _).mpr ⟨le_trans (le_max_left _ _) hle, le_refl _⟩⟩
  refine ⟨?_, ?_, ?_, ?_⟩
  · unfold ray_aabb_intersect
    by_cases hc : aabb_tnear o d bmin bmax ≤ aabb_tfar o d bmin bmax ∧
        0 < aabb_tfar o d bmin bmax
    · rw [if_pos hc]
      exact ⟨fun h => (nomatch h), fun hne => (hne (hiff.mpr hc)).elim⟩
    · rw [if_neg hc]
      exact ⟨fun _ hex => hc (hiff.mp hex), fun _ => rfl⟩
  · intro tn tf heq
    unfold ray_aabb_intersect at heq
    by_cases hc : aabb_tnear o d bmin bmax ≤ aabb_tfar o d bmin bmax ∧
        0 < aabb_tfar o d bmin bmax
    · rw [if_pos hc] at heq
      injection heq with hpair
      rw [Prod.mk.injEq] at hpair
      obtain ⟨h1, h2⟩ := hpair
      rw [← h1, ← h2]
      exact ⟨le_max_right _ _, hc.1, hc.2⟩
    · rw [if_neg hc] at heq
      exact absurd heq (by simp)
  · intro hint
    obtain ⟨h1, h2, h3, h4, h5, h6⟩ := hint
    obtain ⟨sx1, sx2⟩ := slab_interior bmin.x bmax.x o.x d.x hx h1 h2
    obtain ⟨sy1, sy2⟩ := slab_interior bmin.y bmax.y o.y d.y hy h3 h4
    obtain ⟨sz1, sz2⟩ := slab_interior bmin.z bmax.z o.z d.z hz h5 h6
    have htmin : aabb_tmin o d bmin bmax < 0 := max_lt (max_lt sx1 sy1) sz1
    have htfar : 0 < aabb_tfar o d bmin bmax := lt_min (lt_min sx2 sy2) sz2
    have hnear0 : aabb_tnear o d bmin bmax = 0 := max_eq_right (le_of_lt htmin)
    refine ⟨aabb_tfar o d bmin bmax, htfar, ?_⟩
    unfold ray_aabb_intersect
    rw [if_pos ⟨by rw [hnear0]; exact le_of_lt htfar, htfar⟩, hnear0]
  · intro hcase
    have hfarneg : aabb_tfar o d bmin bmax < 0 := by
      unfold aabb_tfar
      rcases hcase with h | h | h | h | h | h
      · exact lt_of_le_of_lt (le_trans (min_le_left _ _) (min_le_left _ _))
          (slab_receding _ _ _ _ hbx (Or.inl h))
      · exact lt_of_le_of_lt (le_trans (min_le_left _ _) (min_le_left _ _))
          (slab_receding _ _ _ _ hbx (Or.inr h))
      · exact lt_of_le_of_lt (le_trans (min_le_left _ _) (min_le_right _ _))
          (slab_receding _ _ _ _ hby (Or.inl h))
      · exact lt_of_le_of_lt (le_trans (min_le_left _ _) (min_le_right _ _))
          (slab_receding _ _ _ _ hby (Or.inr h))
      · exact lt_of_le_of_lt (min_le_right _ _) (slab_receding _ _ _ _ hbz (Or.inl h))
      · exact lt_of_le_of_lt (min_le_right _ _) (slab_receding _ _ _ _ hbz (Or.inr h))
    unfold ray_aabb_intersect
    rw [if_neg]
    intro hc
    exact lt_irrefl (0 : ℚ) (lt_trans hc.2 hfarneg)

/-- C6 witness: a unit-norm direction with no zero component, receding from the
unit box, is rejected. -/
theorem c6_ray_aabb_intersect_interval_witness :
    ((1 : ℚ) / 3 ≠ 0 ∧ ((1 : ℚ) / 3) ^ 2 + ((2 : ℚ) / 3) ^ 2 + ((2 : ℚ) / 3) ^ 2 = 1) ∧
    ray_aabb_intersect ⟨10, 1/2, 1/2⟩ ⟨1/3, 2/3, 2/3⟩ ⟨0, 0, 0⟩ ⟨1, 1, 1⟩ = none :=
  ⟨⟨by norm_num, by norm_num⟩,
    (c6_ray_aabb_intersect_interval ⟨10, 1/2, 1/2⟩ ⟨1/3, 2/3, 2/3⟩ ⟨0, 0, 0⟩ ⟨1, 1, 1⟩
      (by norm_num) (by norm_num) (by norm_num) (by norm_num)
      (by norm_num) (by norm_num) (by norm_num)).2.2.2
      (Or.inl ⟨by norm_num, by norm_num⟩)⟩

/-! ## DDA stepping-loop lemmas -/

/-- The DDA loop uses at most its fuel many iterations. -/
theorem dda_go_count_le (octree : SparseVoxelOctree) (cm delta : Vec3Q) (istep : IVec3) :
    ∀ (fuel : Nat) (cur : IVec3) (side : Vec3Q),
      (dda_go octree cm delta istep fuel cur side).2 ≤ fuel := by
  intro fuel
  induction fuel with
  | zero => intro cur side; exact le_refl 0
  | succ n ih =>
    intro cur side
    simp only [dda_go]
    by_cases hb : cur.x < 0 ∨ (CHUNK_SIZE : Int) ≤ cur.x ∨ cur.y < 0 ∨
        (CHUNK_SIZE : Int) ≤ cur.y ∨ cur.z < 0 ∨ (CHUNK_SIZE : Int) ≤ cur.z
    · rw [if_pos hb]
      exact Nat.succ_le_succ (Nat.zero_le n)
    · rw [if_neg hb]
      by_cases hv : octree.get_voxel ⟨cur.x.toNat, cur.y.toNat, cur.z.toNat⟩ ≠ AIR_VOXEL
      · rw [if_pos hv]
        exact Nat.succ_le_succ (Nat.zero_le n)
      · rw [if_neg hv]
        by_cases hsx : side.x < side.y ∧ side.x < side.z
        · rw [if_pos hsx]
          exact Nat.succ_le_succ (ih _ _)
        · rw [if_neg hsx]
          by_cases hsy : side.y < side.z
          · rw [if_pos hsy]
            exact Nat.succ_le_succ (ih _ _)
          · rw [if_neg hsy]
            exact Nat.succ_le_succ (ih _ _)

/-- Every non-hit outcome of the DDA loop is exactly the canonical miss record
(`RayHit::new_miss`), including fuel exhaustion and leaving the chunk. -/
theorem dda_go_miss (octree : SparseVoxelOctree) (cm delta : Vec3Q) (istep : IVec3) :
    ∀ (fuel : Nat) (cur : IVec3) (side : Vec3Q),
      (dda_go octree cm delta istep fuel cur side).1.hit = false →
      (dda_go octree cm delta istep fuel cur side).1 = RayHitQ.new_miss := by
  intro fuel
  induction fuel with
  | zero => intro cur side _; rfl
  | succ n ih =>
    intro cur side h
    simp only [dda_go] at h ⊢
    by_cases hb : cur.x < 0 ∨ (CHUNK_SIZE : Int) ≤ cur.x ∨ cur.y < 0 ∨
        (CHUNK_SIZE : Int) ≤ cur.y ∨ cur.z < 0 ∨ (CHUNK_SIZE : Int) ≤ cur.z
    · rw [if_pos hb]
    · rw [if_neg hb] at h ⊢
      by_cases hv : octree.get_voxel ⟨cur.x.toNat, cur.y.toNat, cur.z.toNat⟩ ≠ AIR_VOXEL
      · rw [if_pos hv] at h
        exact absurd h (by simp [RayHitQ.new_hit])
      · rw [if_neg hv] at h ⊢
        by_cases hsx : side.x < side.y ∧ side.x < side.z
        · rw [if_pos hsx] at h ⊢
          exact ih _ _ h
        · rw [if_neg hsx] at h ⊢
          by_cases hsy : side.y < side.z
          · rw [if_pos hsy] at h ⊢
            exact ih _ _ h
          · rw [if_neg hsy] at h ⊢
            exact ih _ _ h

/-! ## Claim C8 — bounded DDA iteration, exhaustion is a miss -/

/-- C8: for every ray, chunk octree and start parameter, the DDA stepping loop
begins at most `MAX_RAY_STEPS = 1000` iterations, and whenever no solid voxel is
found (bounds exit or cap exhaustion) the returned value is exactly
`RayHit::new_miss` — a miss, not a fault (the embedded loop is a total function). -/
theorem c8_dda_step_cap_miss (octree : SparseVoxelOctree) (ray_o ray_d chunk_min : Vec3Q)
    (t_start : ℚ) :
    (dda_traverse_count octree ray_o ray_d chunk_min t_start).2 ≤ MAX_RAY_STEPS ∧
    ((dda_traverse octree ray_o ray_d chunk_min t_start).hit = false →
      dda_traverse octree ray_o ray_d chunk_min t_start = RayHitQ.new_miss) := by
  constructor
  · exact dda_go_count_le octree chunk_min _ _ MAX_RAY_STEPS _ _
  · intro h
    exact dda_go_miss octree chunk_min _ _ MAX_RAY_STEPS _ _ h

/-- A fresh octree answers air everywhere: the root has no children, so the first
level of the `get_voxel` descent returns `AIR_VOXEL` for every position. -/
theorem get_voxel_new (p : LocalVoxelPos) :
    SparseVoxelOctree.new.get_voxel p = AIR_VOXEL := by
  unfold SparseVoxelOctree.get_voxel SparseVoxelOctree.new
  rw [show CHUNK_SIZE = 31 + 1 from rfl]
  rw [get_voxel_go]
  rw [if_pos (by omega : (1 : Nat) < 31 + 1)]
  rw [if_pos (by simp [OctreeNode.has_child, OctreeNode.new_empty])]

/-- Against a fresh (all-air) octree the DDA loop never reports a hit. -/
theorem dda_go_new_no_hit (cm delta : Vec3Q) (istep : IVec3) :
    ∀ (fuel : Nat) (cur : IVec3) (side : Vec3Q),
      (dda_go SparseVoxelOctree.new cm delta istep fuel cur side).1.hit = false := by
  intro fuel
  induction fuel with
  | zero => intro cur side; rfl
  | succ n ih =>
    intro cur side
    simp only [dda_go]
    by_cases hb : cur.x < 0 ∨ (CHUNK_SIZE : Int) ≤ cur.x ∨ cur.y < 0 ∨
        (CHUNK_SIZE : Int) ≤ cur.y ∨ cur.z < 0 ∨ (CHUNK_SIZE : Int) ≤ cur.z
    · rw [if_pos hb]
      rfl
    · rw [if_neg hb]
      rw [if_neg (by simp [get_voxel_new])]
      by_cases hsx : side.x < side.y ∧ side.x < side.z
      · rw [if_pos hsx]
        exact ih _ _
      · rw [if_neg hsx]
        by_cases hsy : side.y < side.z
        · rw [if_pos hsy]
          exact ih _ _
        · rw [if_neg hsy]
          exact ih _ _

/-- C8 witness: a concrete traversal of a fresh chunk misses and returns exactly
the canonical miss record. -/
theorem c8_dda_step_cap_miss_witness :
    (dda_traverse SparseVoxelOctree.new ⟨-100, 0, 0⟩ ⟨1, 0, 0⟩ ⟨0, 0, 0⟩ 1).hit = false ∧
    dda_traverse SparseVoxelOctree.new ⟨-100, 0, 0⟩ ⟨1, 0, 0⟩ ⟨0, 0, 0⟩ 1 = RayHitQ.new_miss := by
  constructor
  · exact dda_go_new_no_hit _ _ _ _ _ _
  · exact (c8_dda_step_cap_miss SparseVoxelOctree.new ⟨-100, 0, 0⟩ ⟨1, 0, 0⟩ ⟨0, 0, 0⟩ 1).2
      (dda_go_new_no_hit _ _ _ _ _ _)
